import Mathlib

/-!
Shallow embedding of the data-join and derived-metric pipeline of the
London Black-income map repository (process_census_data.py,
download_census_data.py, london_black_income_map.py, streamlit_app.py),
with theorems settling the spec's claims about it.

Pandas floats are modelled as `PFloat` (a rational, +inf, -inf or NaN);
machine floats' rounding is irrelevant to the claims, which are about
comparisons, sums and membership.  Census observation counts are integers
in both pipelines (the CSV holds counts, the API path applies `int(...)`),
so they are modelled as `ℤ`; monetary columns and derived shares are `ℚ`.
Tables are lists of records; pandas `merge` is modelled faithfully,
including the row duplication it performs on duplicate keys.
-/

/-! ### String helpers, mirroring Python `str` methods over character lists -/

/-- `startsList pre s`: does `s` start with `pre`?  (Python `str.startswith`.) -/
def startsList : List Char → List Char → Bool
  | [], _ => true
  | _ :: _, [] => false
  | a :: as, b :: bs => a == b && startsList as bs

/-- Python `s.startswith(p)` on `String`s. -/
def sStarts (s p : String) : Bool := startsList p.toList s.toList

/-- `containsList sub s`: does `sub` occur inside `s`?  (Python `in`.) -/
def containsList (sub : List Char) : List Char → Bool
  | [] => sub.isEmpty
  | c :: cs => startsList sub (c :: cs) || containsList sub cs

/-- Python `s.endswith(suf)`. -/
def endsList (suf s : List Char) : Bool := startsList suf.reverse s.reverse

/-- Python `s.lower()` as a character list. -/
def lowerChars (s : String) : List Char := s.toList.map Char.toLower

/-! ### Pandas floating-point values -/

/-- A pandas float64 cell: finite value, an infinity, or NaN. -/
inductive PFloat where
  | fin (q : ℚ)
  | inf
  | ninf
  | nan
deriving DecidableEq

/-- IEEE-754 division of finite values as pandas performs it:
`x / 0` is `+inf` for `x > 0`, `-inf` for `x < 0`, NaN for `0 / 0`. -/
def pdiv (a b : ℚ) : PFloat :=
  if b = 0 then (if a = 0 then PFloat.nan else if 0 < a then PFloat.inf else PFloat.ninf)
  else PFloat.fin (a / b)

/-- NaN test on a pandas cell. -/
def PFloat.isNaN : PFloat → Bool
  | PFloat.nan => true
  | _ => false

/-! ### Ethnicity reader, local CSV path (`process_census_data.py`) -/

/-- One row of the long-format Census TS021 CSV: area code, ethnic-group
label, observation value. -/
structure CRow where
  area : String
  ethnic : String
  value : ℤ
deriving DecidableEq

/-- The tracked-group label stem used by `process_census_data.py`
(`str.startswith` argument). -/
def blackLabel : String := "Black, Black British, Black Welsh, Caribbean or African:"

/-- Sum of the values attached to key `k` in a keyed list
(one group of a pandas `groupby(col)[val].sum()`). -/
def sumFor (k : String) (l : List (String × ℤ)) : ℤ :=
  ((l.filter (fun p => p.1 == k)).map Prod.snd).sum

/-- Pandas `groupby(col)[val].sum()`: one output row per distinct key.
(Pandas emits group keys sorted; key order is immaterial to every
property proved below, so de-duplication order is used.) -/
def groupSum (l : List (String × ℤ)) : List (String × ℤ) :=
  ((l.map Prod.fst).dedup).map (fun k => (k, sumFor k l))

/-- `process_census_data` from `process_census_data.py`: restrict to rows
whose area code starts with `"E02"`, total population per area as the sum
over all rows, Black count per area as the sum over rows whose ethnic
label starts with `blackLabel`, then inner-merge the two sums on the area
code.  Both merge inputs are `groupby` outputs, so their keys are unique
and the inner merge is a lookup. -/
def process_census_data (df : List CRow) : List (String × ℤ × ℤ) :=
  let msoa_data := df.filter (fun r => sStarts r.area "E02")
  let total := groupSum (msoa_data.map (fun r => (r.area, r.value)))
  let black := msoa_data.filter (fun r => sStarts r.ethnic blackLabel)
  let black_sum := groupSum (black.map (fun r => (r.area, r.value)))
  black_sum.filterMap (fun bc =>
    (total.find? (fun t => t.1 == bc.1)).map (fun t => (bc.1, bc.2, t.2)))

/-- Black count reported for area `a`: the sum of the observation values of
the rows that pass the `"E02"` area filter and the tracked-group label
filter and carry area code `a`. -/
def blackSumFor (df : List CRow) (a : String) : ℤ :=
  sumFor a (((df.filter (fun r => sStarts r.area "E02")).filter
    (fun r => sStarts r.ethnic blackLabel)).map (fun r => (r.area, r.value)))

/-- Population reported for area `a`: the sum of the observation values of
all rows that pass the `"E02"` area filter and carry area code `a`. -/
def popSumFor (df : List CRow) (a : String) : ℤ :=
  sumFor a ((df.filter (fun r => sStarts r.area "E02")).map (fun r => (r.area, r.value)))

/-- The spec's two-row ethnicity-reader scenario. -/
def censusEx : List CRow :=
  [⟨"E02000001", "Black, Black British, Black Welsh, Caribbean or African: African", 50⟩,
   ⟨"E02000001", "White: English", 450⟩]

example : process_census_data censusEx = [("E02000001", 50, 500)] := by decide

/-! ### Ethnicity reader, API download path (`download_census_data.py`) -/

/-- One observation of the ONS API response: geography id, ethnic-group
label, sex label, observation value (cast with `int(...)` in the source). -/
structure Obs where
  msoa : String
  ethnic_group : String
  sex : String
  value : ℤ
deriving DecidableEq

/-- The exact aggregate labels consumed by `process_observations`. -/
def allLabel : String := "All ethnic groups"

/-- The exact tracked-group aggregate label of the download path. -/
def blackAgg : String := "Black, Black British, Black Welsh, Caribbean or African"

/-- The record-collection loop of `process_observations`: keep an
observation only when its sex dimension label is exactly `"All persons"`. -/
def obsData (observations : List Obs) : List (String × String × ℤ) :=
  observations.filterMap (fun o =>
    if o.sex == "All persons" then some (o.msoa, o.ethnic_group, o.value) else none)

/-- `process_observations` from `download_census_data.py`: population from
the rows labelled exactly `allLabel`, Black count from the rows labelled
exactly `blackAgg`, inner-merged on the area code (pandas inner merge,
with its product behaviour on duplicate keys). -/
def process_observations (observations : List Obs) : List (String × ℤ × ℤ) :=
  let data := obsData observations
  let total := (data.filter (fun d => d.2.1 == allLabel)).map (fun d => (d.1, d.2.2))
  let black := (data.filter (fun d => d.2.1 == blackAgg)).map (fun d => (d.1, d.2.2))
  black.flatMap (fun b => (total.filter (fun t => t.1 == b.1)).map (fun t => (b.1, b.2, t.2)))

/-- Reading an observation list as rows of the local CSV consumed by
`process_census_data` (same area code, label and value columns). -/
def toCRow (o : Obs) : CRow := ⟨o.msoa, o.ethnic_group, o.value⟩

/-- A consistent observation list: the aggregate rows equal the sums of
their subcategory rows. -/
def obsEx : List Obs :=
  [⟨"E02000001", "All ethnic groups", "All persons", 500⟩,
   ⟨"E02000001", "Black, Black British, Black Welsh, Caribbean or African", "All persons", 50⟩,
   ⟨"E02000001", "Black, Black British, Black Welsh, Caribbean or African: African", "All persons", 50⟩,
   ⟨"E02000001", "White: English", "All persons", 450⟩]

/-! ### Geometry reader's shapefile selection (`london_black_income_map.py`) -/

/-- Candidate test of `_search_shp_member`: the lower-cased member name
ends with `".shp"` and contains both `"msoa"` and `"london"`. -/
def shpMatch (m : String) : Bool :=
  endsList ".shp".toList (lowerChars m) &&
  containsList "msoa".toList (lowerChars m) &&
  containsList "london".toList (lowerChars m)

/-- Python `min(candidates, key=len)`: first element of minimal length. -/
def minByLen (c : String) : List String → String
  | [] => c
  | d :: ds => if d.length < c.length then minByLen d ds else minByLen c ds

/-- `_search_shp_member`: pick the shortest candidate member, error when
there is none. -/
def _search_shp_member (members : List String) : Except String String :=
  match members.filter shpMatch with
  | [] => Except.error "MSOA shapefile not found in boundary ZIP"
  | c :: cs => Except.ok (minByLen c cs)

/-! ### Calculator and adapter (`streamlit_app.py`) -/

/-- The metric columns of one joined row, as read by the filter. -/
structure FRow where
  black_share : ℚ
  income : ℚ
  median_house_price : ℚ
deriving DecidableEq, Inhabited

/-- The sidebar thresholds of one render request. -/
structure FilterCriteria where
  min_black_share : ℚ
  min_income : ℚ
  max_house_price : ℚ
deriving DecidableEq

/-- Row-wise filter condition of `current_filter_mask`. -/
def rowMatches (c : FilterCriteria) (r : FRow) : Bool :=
  decide (c.min_black_share ≤ r.black_share) &&
  decide (c.min_income ≤ r.income) &&
  decide (r.median_house_price ≤ c.max_house_price)

/-- `current_filter_mask` of `streamlit_app.py`: the boolean membership
column over the joined table. -/
def current_filter_mask (gdf : List FRow) (c : FilterCriteria) : List Bool :=
  gdf.map (rowMatches c)

/-- `current_filter_mask.sum()`: the reported number of matching MSOAs. -/
def foundCount (gdf : List FRow) (c : FilterCriteria) : ℕ :=
  (current_filter_mask gdf c).count true

/-- The spec's three-row end-to-end filter scenario. -/
def exTable : List FRow :=
  [⟨0.20, 50000, 300000⟩, ⟨0.05, 60000, 200000⟩, ⟨0.30, 40000, 500000⟩]

/-- The criteria of the spec's end-to-end filter scenario. -/
def exCrit : FilterCriteria := ⟨0.15, 45000, 400000⟩

/-- Pandas `Series.mean()`: NaN on an empty column. -/
def pmean (l : List ℚ) : PFloat :=
  if l = [] then PFloat.nan else PFloat.fin (l.sum / l.length)

/-- Ascending sort of a column (pandas quantile sorts its input). -/
def sortQ (l : List ℚ) : List ℚ := l.insertionSort (· ≤ ·)

/-- Pandas `Series.quantile(0.65)` on a non-empty column: linear
interpolation between the order statistics at the virtual index
`0.65 * (n - 1)`. -/
def quantile65 (l : List ℚ) : ℚ :=
  let s := sortQ l
  let n := l.length
  let h : ℚ := 65 * ((n : ℚ) - 1) / 100
  let j : ℕ := (⌊h⌋).toNat
  let g : ℚ := h - (j : ℚ)
  let xj := s.getD j 0
  let xj1 := s.getD (min (j + 1) (n - 1)) 0
  xj + g * (xj1 - xj)

/-- Pandas `Series.quantile(0.65)`: NaN on an empty column. -/
def pquantile65 (l : List ℚ) : PFloat :=
  if l = [] then PFloat.nan else PFloat.fin (quantile65 l)

/-- `calculate_global_stats` of `streamlit_app.py`. -/
def calculate_global_stats (income housing : List ℚ) : PFloat × PFloat :=
  (pmean income, pquantile65 housing)

/-! ### Joiner (`load_all_data` of `streamlit_app.py`) -/

/-- One row of `black_population.csv` (`msoa,black_count,population`). -/
structure BRow where
  msoa : String
  black_count : ℤ
  population : ℤ
deriving DecidableEq

/-- One row of `load_black_population`'s output: the CSV columns plus the
derived share column. -/
structure BOut where
  msoa : String
  black_count : ℤ
  population : ℤ
  black_share : PFloat
deriving DecidableEq

/-- `load_black_population`: `black_share = black_count / population`,
float division row by row. -/
def load_black_population (df : List BRow) : List BOut :=
  df.map (fun r => ⟨r.msoa, r.black_count, r.population,
    pdiv (r.black_count : ℚ) (r.population : ℚ)⟩)

/-- One row of the boundary table (`load_london_shapes` output columns;
the geometry column is passed through unchanged and is not modelled). -/
structure GRow where
  msoa : String
  msoa_name : String
deriving DecidableEq

/-- One row of `load_income`'s output. -/
structure IRow where
  msoa : String
  income : ℚ
deriving DecidableEq

/-- One row of `load_housing_affordability`'s output. -/
structure HRow where
  msoa : String
  msoa_full_name : String
  median_house_price : ℚ
deriving DecidableEq

/-- The wide row after the three left merges; columns coming from a right
table are `Option`s, `none` marking the NaN of an unmatched key. -/
structure JRow where
  msoa : String
  msoa_name : String
  income : Option ℚ
  black_count : Option ℤ
  population : Option ℤ
  black_share : Option PFloat
  msoa_full_name : Option String
  median_house_price : Option ℚ
deriving DecidableEq

/-- Pandas `left.merge(right, on=key, how="left")`: every left row is kept;
each right row with an equal key produces one output row, an unmatched
left row produces one output row with missing right columns. -/
def mergeLeft {α β γ : Type} (ka : α → String) (kb : β → String)
    (mk : α → Option β → γ) (l : List α) (r : List β) : List γ :=
  l.flatMap (fun a =>
    match r.filter (fun b => kb b == ka a) with
    | [] => [mk a none]
    | ms => ms.map (fun b => mk a (some b)))

/-- `gdf.merge(income_df, on="msoa", how="left")`. -/
def mergeIncome (g : List GRow) (inc : List IRow) : List (GRow × Option ℚ) :=
  mergeLeft GRow.msoa IRow.msoa (fun a b => (a, b.map IRow.income)) g inc

/-- `....merge(black_df, on="msoa", how="left")`. -/
def mergeBlack (m : List (GRow × Option ℚ)) (bl : List BOut) :
    List (GRow × Option ℚ × Option BOut) :=
  mergeLeft (fun p => p.1.msoa) BOut.msoa (fun a b => (a.1, a.2, b)) m bl

/-- `....merge(housing_df, on="msoa", how="left")`, assembling the wide row. -/
def mergeHousing (m : List (GRow × Option ℚ × Option BOut)) (hous : List HRow) :
    List JRow :=
  mergeLeft (fun p => p.1.msoa) HRow.msoa
    (fun a b => ⟨a.1.msoa, a.1.msoa_name, a.2.1,
      (a.2.2).map BOut.black_count, (a.2.2).map BOut.population,
      (a.2.2).map BOut.black_share,
      b.map HRow.msoa_full_name, b.map HRow.median_house_price⟩) m hous

/-- A merged float cell survives `dropna` when it is present and not NaN
(a missing key produced NaN; `inf` is not dropped by `dropna`). -/
def notNaNCell (x : Option PFloat) : Bool :=
  match x with
  | some v => ! v.isNaN
  | none => false

/-- The `dropna(subset=['black_share', 'income', 'median_house_price'])`
row test: all three cells present and not NaN. -/
def keepRow (j : JRow) : Bool :=
  notNaNCell j.black_share && j.income.isSome && j.median_house_price.isSome

/-- `load_all_data` of `streamlit_app.py`: three left merges on `msoa`,
then the `dropna` on the metric columns. -/
def load_all_data (g : List GRow) (inc : List IRow) (blackcsv : List BRow)
    (hous : List HRow) : List JRow :=
  (mergeHousing (mergeBlack (mergeIncome g inc) (load_black_population blackcsv)) hous).filter
    keepRow

/-! ### Lemmas about `groupSum` and the census reader -/

lemma sumFor_map_area (l : List CRow) (k : String) :
    sumFor k (l.map (fun r => (r.area, r.value))) =
      ((l.filter (fun r => r.area == k)).map CRow.value).sum := by
  simp [sumFor, List.filter_map, Function.comp_def, List.map_map]

lemma groupSum_keys (l : List (String × ℤ)) :
    (groupSum l).map Prod.fst = (l.map Prod.fst).dedup := by
  simp [groupSum, List.map_map, Function.comp_def]

lemma groupSum_keys_nodup (l : List (String × ℤ)) :
    ((groupSum l).map Prod.fst).Nodup := by
  rw [groupSum_keys]; exact List.nodup_dedup _

lemma mem_groupSum {l : List (String × ℤ)} {k : String} {v : ℤ}
    (h : (k, v) ∈ groupSum l) : v = sumFor k l ∧ k ∈ l.map Prod.fst := by
  simp only [groupSum, List.mem_map] at h
  obtain ⟨k', hk', heq⟩ := h
  have h1 : k' = k := congrArg Prod.fst heq
  have h2 : sumFor k' l = v := congrArg Prod.snd heq
  subst h1
  exact ⟨h2.symm, List.mem_dedup.mp hk'⟩

lemma groupSum_mem_of {l : List (String × ℤ)} {k : String}
    (h : k ∈ l.map Prod.fst) : (k, sumFor k l) ∈ groupSum l := by
  simp only [groupSum, List.mem_map]
  exact ⟨k, List.mem_dedup.mpr h, rfl⟩

lemma find?_eq_of_mem_keyed {l : List (String × ℤ)}
    (hn : (l.map Prod.fst).Nodup) {k : String} {v : ℤ} (hm : (k, v) ∈ l) :
    l.find? (fun t => t.1 == k) = some (k, v) := by
  induction l with
  | nil => simp at hm
  | cons p rest ih =>
    simp only [List.map_cons, List.nodup_cons] at hn
    rcases List.mem_cons.mp hm with h | h
    · subst h
      simp [List.find?]
    · have hne : (p.1 == k) = false := beq_eq_false_iff_ne.mpr (fun he => hn.1
        (he ▸ List.mem_map.mpr ⟨(k, v), h, rfl⟩))
      simp only [List.find?, hne]
      exact ih hn.2 h

/-- Characterization of the census reader's output rows: the Black count is
the filtered sum, the population the unfiltered sum, and the area has at
least one tracked-group row. -/
lemma process_census_mem {df : List CRow} {a : String} {c p : ℤ}
    (h : (a, c, p) ∈ process_census_data df) :
    c = blackSumFor df a ∧ p = popSumFor df a ∧
      a ∈ ((df.filter (fun r => sStarts r.area "E02")).filter
        (fun r => sStarts r.ethnic blackLabel)).map CRow.area := by
  simp only [process_census_data, List.mem_filterMap, Option.map_eq_some'] at h
  obtain ⟨bc, hbc, t, hfind, heq⟩ := h
  have h1 : bc.1 = a := congrArg (fun q => q.1) heq
  have h2 : bc.2 = c := congrArg (fun q => q.2.1) heq
  have h3 : t.2 = p := congrArg (fun q => q.2.2) heq
  have hbc' := mem_groupSum (show (bc.1, bc.2) ∈ _ from hbc)
  have ht1 : t.1 = bc.1 := by simpa using List.find?_some hfind
  have ht := mem_groupSum (show (t.1, t.2) ∈ _ from List.mem_of_find?_eq_some hfind)
  refine ⟨?_, ?_, ?_⟩
  · rw [← h2, ← h1]
    exact hbc'.1
  · rw [← h3, ← h1, ← ht1]
    exact ht.1
  · rw [← h1]
    simpa [List.map_map, Function.comp_def] using hbc'.2

/-- Converse: every area with a tracked-group row appears in the output,
carrying the two sums. -/
lemma process_census_mem_of {df : List CRow} {a : String}
    (h : a ∈ ((df.filter (fun r => sStarts r.area "E02")).filter
      (fun r => sStarts r.ethnic blackLabel)).map CRow.area) :
    (a, blackSumFor df a, popSumFor df a) ∈ process_census_data df := by
  have hk : a ∈ (((df.filter (fun r => sStarts r.area "E02")).filter
      (fun r => sStarts r.ethnic blackLabel)).map
        (fun r => (r.area, r.value))).map Prod.fst := by
    simpa [List.map_map, Function.comp_def] using h
  have hkt : a ∈ ((df.filter (fun r => sStarts r.area "E02")).map
      (fun r => (r.area, r.value))).map Prod.fst := by
    obtain ⟨r, hr, hra⟩ := List.mem_map.mp h
    exact List.mem_map.mpr ⟨(r.area, r.value),
      List.mem_map.mpr ⟨r, List.mem_of_mem_filter hr, rfl⟩, hra⟩
  refine List.mem_filterMap.mpr ⟨(a, blackSumFor df a), groupSum_mem_of hk, ?_⟩
  show ((groupSum ((df.filter (fun r => sStarts r.area "E02")).map
      (fun r => (r.area, r.value)))).find? (fun t => t.1 == a)).map
        (fun t => (a, blackSumFor df a, t.2)) =
      some (a, blackSumFor df a, popSumFor df a)
  rw [find?_eq_of_mem_keyed (groupSum_keys_nodup _) (groupSum_mem_of hkt)]
  rfl


/-! ### Claims C4, C5, C10: the ethnicity reader -/

/-- C4: for every long-format ethnicity input, each output row of the
reader carries the sum of the observation values over the area's
tracked-group rows and over all of the area's rows (areas filtered to the
`"E02"` region); on the spec's two-row scenario this gives
`total_population = 500`, `group_count = 50` and a share of `0.10`. -/
theorem C4_ethnicity_reader (df : List CRow) (a : String) (c p : ℤ)
    (hmem : (a, c, p) ∈ process_census_data df) :
    (c = blackSumFor df a ∧ p = popSumFor df a) ∧
    process_census_data censusEx = [("E02000001", 50, 500)] ∧
    pdiv ((50 : ℤ) : ℚ) ((500 : ℤ) : ℚ) = PFloat.fin (1 / 10) := by
  obtain ⟨hc, hp, -⟩ := process_census_mem hmem
  refine ⟨⟨hc, hp⟩, by decide, ?_⟩
  norm_num [pdiv]

theorem C4_witness :
    (((50 : ℤ) = blackSumFor censusEx "E02000001" ∧
      (500 : ℤ) = popSumFor censusEx "E02000001") ∧
    process_census_data censusEx = [("E02000001", 50, 500)] ∧
    pdiv ((50 : ℤ) : ℚ) ((500 : ℤ) : ℚ) = PFloat.fin (1 / 10)) :=
  C4_ethnicity_reader censusEx "E02000001" 50 500 (by decide)

/-- C5: with non-negative observation values, every output row with
nonzero population has its share `group_count / total_population` finite
and inside `[0, 1]`. -/
theorem C5_share_in_unit_interval (df : List CRow)
    (hnn : ∀ r ∈ df, 0 ≤ r.value) (a : String) (c p : ℤ)
    (hmem : (a, c, p) ∈ process_census_data df) (hp : p ≠ 0) :
    pdiv (c : ℚ) (p : ℚ) = PFloat.fin ((c : ℚ) / (p : ℚ)) ∧
    0 ≤ (c : ℚ) / (p : ℚ) ∧ (c : ℚ) / (p : ℚ) ≤ 1 := by
  obtain ⟨hc, hpp, -⟩ := process_census_mem hmem
  have hnnE : ∀ x ∈ ((df.filter (fun r => sStarts r.area "E02")).filter
      (fun r => r.area == a)).map CRow.value, (0 : ℤ) ≤ x := by
    intro x hx
    obtain ⟨r, hr, rfl⟩ := List.mem_map.mp hx
    exact hnn r (List.mem_of_mem_filter (List.mem_of_mem_filter hr))
  have h0c : (0 : ℤ) ≤ c := by
    rw [hc, blackSumFor, sumFor_map_area]
    refine List.sum_nonneg ?_
    intro x hx
    obtain ⟨r, hr, rfl⟩ := List.mem_map.mp hx
    exact hnn r (List.mem_of_mem_filter (List.mem_of_mem_filter
      (List.mem_of_mem_filter hr)))
  have hcp : c ≤ p := by
    rw [hc, hpp, blackSumFor, popSumFor, sumFor_map_area, sumFor_map_area]
    exact List.Sublist.sum_le_sum
      (List.Sublist.map _ (List.Sublist.filter _ (List.filter_sublist _))) hnnE
  have h0p : (0 : ℤ) < p := by
    refine lt_of_le_of_ne ?_ (Ne.symm hp)
    rw [hpp, popSumFor, sumFor_map_area]
    exact List.sum_nonneg hnnE
  have h0pq : (0 : ℚ) < (p : ℚ) := by exact_mod_cast h0p
  have hcpq : (c : ℚ) ≤ (p : ℚ) := by exact_mod_cast hcp
  have h0cq : (0 : ℚ) ≤ (c : ℚ) := by exact_mod_cast h0c
  refine ⟨?_, div_nonneg h0cq h0pq.le, (div_le_one h0pq).mpr hcpq⟩
  simp [pdiv, ne_of_gt h0pq]

theorem C5_witness :
    pdiv ((50 : ℤ) : ℚ) ((500 : ℤ) : ℚ) =
      PFloat.fin (((50 : ℤ) : ℚ) / ((500 : ℤ) : ℚ)) ∧
    0 ≤ ((50 : ℤ) : ℚ) / ((500 : ℤ) : ℚ) ∧
    ((50 : ℤ) : ℚ) / ((500 : ℤ) : ℚ) ≤ 1 :=
  C5_share_in_unit_interval censusEx (by decide) "E02000001" 50 500
    (by decide) (by decide)

/-- C10: the reader's output contains exactly the areas that have at least
one `"E02"`-region row whose ethnic label starts with the tracked-group
label; an area with no such row is absent entirely. -/
theorem C10_output_areas (df : List CRow) (a : String) :
    (∃ c p : ℤ, (a, c, p) ∈ process_census_data df) ↔
      ∃ r ∈ df, r.area = a ∧ sStarts r.area "E02" = true ∧
        sStarts r.ethnic blackLabel = true := by
  constructor
  · rintro ⟨c, p, hmem⟩
    obtain ⟨-, -, hmem'⟩ := process_census_mem hmem
    obtain ⟨r, hr, rfl⟩ := List.mem_map.mp hmem'
    have h1 := (List.mem_filter.mp hr).2
    have hr2 := (List.mem_filter.mp hr).1
    have h2 := (List.mem_filter.mp hr2).2
    exact ⟨r, (List.mem_filter.mp hr2).1, rfl, h2, h1⟩
  · rintro ⟨r, hr, rfl, hE, hB⟩
    refine ⟨blackSumFor df r.area, popSumFor df r.area, process_census_mem_of ?_⟩
    exact List.mem_map.mpr ⟨r,
      List.mem_filter.mpr ⟨List.mem_filter.mpr ⟨hr, hE⟩, hB⟩, rfl⟩

/-! ### Claim C1: the membership mask and match count -/

lemma getD_map_of_lt {α β : Type} [Inhabited α] (f : α → β) (l : List α)
    (i : ℕ) (h : i < l.length) (d : β) :
    (l.map f).getD i d = f (l.getD i default) := by
  rw [List.getD_eq_getElem _ _ (by simpa using h), List.getD_eq_getElem _ _ h,
    List.getElem_map]

/-- C1: the membership mask is row-wise true exactly when all three
threshold conditions hold, the reported count is the number of rows
satisfying them, and the spec's three-row scenario yields the mask
`[true, false, false]` and the count `1`. -/
theorem C1_filter_mask (gdf : List FRow) (c : FilterCriteria) (i : ℕ)
    (h : i < gdf.length) :
    ((current_filter_mask gdf c).getD i false = true ↔
      (c.min_black_share ≤ (gdf.getD i default).black_share ∧
       c.min_income ≤ (gdf.getD i default).income ∧
       (gdf.getD i default).median_house_price ≤ c.max_house_price)) ∧
    foundCount gdf c = gdf.countP (fun r =>
      decide (c.min_black_share ≤ r.black_share ∧ c.min_income ≤ r.income ∧
        r.median_house_price ≤ c.max_house_price)) ∧
    current_filter_mask exTable exCrit = [true, false, false] ∧
    foundCount exTable exCrit = 1 := by
  refine ⟨?_, ?_, ?_, ?_⟩
  · rw [current_filter_mask, getD_map_of_lt _ _ _ h]
    simp [rowMatches, and_assoc]
  · rw [foundCount, current_filter_mask, List.count_eq_countP, List.countP_map]
    refine List.countP_congr ?_
    intro r _
    simp [rowMatches, Function.comp_def, and_assoc]
  · norm_num [current_filter_mask, exTable, exCrit, rowMatches]
  · norm_num [foundCount, current_filter_mask, exTable, exCrit, rowMatches,
      List.count_eq_countP]

theorem C1_witness :
    ((current_filter_mask exTable exCrit).getD 0 false = true ↔
      (exCrit.min_black_share ≤ (exTable.getD 0 default).black_share ∧
       exCrit.min_income ≤ (exTable.getD 0 default).income ∧
       (exTable.getD 0 default).median_house_price ≤ exCrit.max_house_price)) ∧
    foundCount exTable exCrit = exTable.countP (fun r =>
      decide (exCrit.min_black_share ≤ r.black_share ∧
        exCrit.min_income ≤ r.income ∧
        r.median_house_price ≤ exCrit.max_house_price)) ∧
    current_filter_mask exTable exCrit = [true, false, false] ∧
    foundCount exTable exCrit = 1 :=
  C1_filter_mask exTable exCrit 0 (by decide)

/-! ### Claim C3: NaN/inf behaviour of the calculator -/

/-- C3 counterexample: on a zero-population row the pipeline quietly
computes an infinite (or NaN) share, and on empty columns the global
statistics are NaN — no error is raised anywhere. -/
theorem C3_counterexample :
    load_black_population [⟨"E02000001", 5, 0⟩] =
      [⟨"E02000001", 5, 0, PFloat.inf⟩] ∧
    load_black_population [⟨"E02000002", 0, 0⟩] =
      [⟨"E02000002", 0, 0, PFloat.nan⟩] ∧
    calculate_global_stats [] [] = (PFloat.nan, PFloat.nan) := by
  refine ⟨by decide, by decide, rfl⟩

/-- C3 amended: a row with `total_population = 0` flows through
`load_black_population` with share `+inf` (positive count), `-inf`
(negative count) or NaN (zero count) instead of raising an error, and on
an empty joined table both global statistics are NaN, not an error. -/
theorem C3_no_error_on_zero_population (rows : List BRow) (r : BRow)
    (hr : r ∈ rows) (hp : r.population = 0) :
    (⟨r.msoa, r.black_count, r.population,
      if r.black_count = 0 then PFloat.nan
      else if 0 < r.black_count then PFloat.inf else PFloat.ninf⟩ : BOut) ∈
        load_black_population rows ∧
    calculate_global_stats [] [] = (PFloat.nan, PFloat.nan) := by
  refine ⟨?_, rfl⟩
  refine List.mem_map.mpr ⟨r, hr, ?_⟩
  show (⟨r.msoa, r.black_count, r.population,
    pdiv (r.black_count : ℚ) (r.population : ℚ)⟩ : BOut) = _
  rw [hp]
  simp [pdiv, BOut.mk.injEq, Int.cast_eq_zero, Int.cast_pos]

theorem C3_witness :
    (⟨"E02000001", 5, 0,
      if (5 : ℤ) = 0 then PFloat.nan
      else if (0 : ℤ) < 5 then PFloat.inf else PFloat.ninf⟩ : BOut) ∈
        load_black_population [⟨"E02000001", 5, 0⟩] ∧
    calculate_global_stats [] [] = (PFloat.nan, PFloat.nan) :=
  C3_no_error_on_zero_population [⟨"E02000001", 5, 0⟩] ⟨"E02000001", 5, 0⟩
    (by decide) rfl

/-! ### Claim C9: the sex-dimension filter of the download path -/

lemma obsData_filter (L : List Obs) :
    obsData (L.filter (fun o => o.sex == "All persons")) = obsData L := by
  induction L with
  | nil => rfl
  | cons o rest ih =>
    simp only [List.filter_cons]
    by_cases h : (o.sex == "All persons") = true
    · simp only [h, if_true, obsData, List.filterMap_cons]
      simpa [obsData, h] using ih
    · simp only [Bool.not_eq_true] at h
      simp only [h, Bool.false_eq_true, if_false, obsData, List.filterMap_cons]
      simpa [obsData, h] using ih

lemma obsData_drop (o : Obs) (L₁ L₂ : List Obs) (h : o.sex ≠ "All persons") :
    obsData (L₁ ++ o :: L₂) = obsData (L₁ ++ L₂) := by
  simp [obsData, List.filterMap_append, List.filterMap_cons, beq_iff_eq, h]

/-- C9: an observation contributes to `process_observations` only when its
sex label is exactly `"All persons"`: filtering the input to those rows
changes nothing, and deleting any row with another sex label changes
nothing. -/
theorem C9_sex_filter :
    (∀ L : List Obs, process_observations L =
      process_observations (L.filter (fun o => o.sex == "All persons"))) ∧
    (∀ (o : Obs) (L₁ L₂ : List Obs), o.sex ≠ "All persons" →
      process_observations (L₁ ++ o :: L₂) = process_observations (L₁ ++ L₂)) := by
  constructor
  · intro L
    simp only [process_observations]
    rw [obsData_filter]
  · intro o L₁ L₂ h
    simp only [process_observations]
    rw [obsData_drop o L₁ L₂ h]

theorem C9_witness :
    process_observations ([] ++ ⟨"E02000001", "All ethnic groups", "Female", 5⟩ :: []) =
      process_observations ([] ++ []) :=
  C9_sex_filter.2 ⟨"E02000001", "All ethnic groups", "Female", 5⟩ [] [] (by decide)

/-! ### Claim C7: shapefile selection -/

lemma minByLen_mem (c : String) (l : List String) : minByLen c l ∈ c :: l := by
  induction l generalizing c with
  | nil => simp [minByLen]
  | cons d ds ih =>
    by_cases h : d.length < c.length
    · simp only [minByLen, if_pos h]
      exact List.mem_cons_of_mem c (ih d)
    · simp only [minByLen, if_neg h]
      rcases List.mem_cons.mp (ih c) with h' | h'
      · rw [h']
        exact List.mem_cons_self _ _
      · exact List.mem_cons_of_mem _ (List.mem_cons_of_mem _ h')

lemma minByLen_le (c : String) (l : List String) :
    ∀ x ∈ c :: l, (minByLen c l).length ≤ x.length := by
  induction l generalizing c with
  | nil =>
    intro x hx
    rw [List.mem_singleton.mp hx]
    simp [minByLen]
  | cons d ds ih =>
    intro x hx
    rcases List.mem_cons.mp hx with rfl | hx'
    · by_cases h : x.length ≤ d.length
      · by_cases h' : d.length < x.length
        · exact absurd h' (not_lt.mpr h)
        · simp only [minByLen, if_neg h']
          exact ih x x (List.mem_cons_self x ds)
      · have h' : d.length < x.length := not_le.mp h
        simp only [minByLen, if_pos h']
        exact le_trans (ih d d (List.mem_cons_self d ds)) h'.le
    · rcases List.mem_cons.mp hx' with rfl | hx''
      · by_cases h : x.length < c.length
        · simp only [minByLen, if_pos h]
          exact ih x x (List.mem_cons_self x ds)
        · simp only [minByLen, if_neg h]
          exact le_trans (ih c c (List.mem_cons_self c ds)) (not_lt.mp h)
      · by_cases h : d.length < c.length
        · simp only [minByLen, if_pos h]
          exact ih d x (List.mem_cons_of_mem d hx'')
        · simp only [minByLen, if_neg h]
          exact ih c x (List.mem_cons_of_mem c hx'')

/-- C7: when the selection returns a member it is a matching member of
minimal filename length; it errors exactly when no member matches (a match
being a `.shp` whose lower-cased name contains the granularity token
`"msoa"` and the region token `"london"`). -/
theorem C7_shapefile_selection (members : List String) :
    (∀ m, _search_shp_member members = Except.ok m →
      m ∈ members ∧ shpMatch m = true ∧
        ∀ m' ∈ members, shpMatch m' = true → m.length ≤ m'.length) ∧
    ((∃ e, _search_shp_member members = Except.error e) ↔
      ∀ m ∈ members, shpMatch m = false) := by
  cases hf : members.filter shpMatch with
  | nil =>
    refine ⟨?_, ?_, ?_⟩
    · intro m hm
      simp [_search_shp_member, hf] at hm
    · intro _ m hm
      by_contra hne
      have hmm : m ∈ members.filter shpMatch :=
        List.mem_filter.mpr ⟨hm, by simpa using hne⟩
      rw [hf] at hmm
      simp at hmm
    · intro _
      exact ⟨"MSOA shapefile not found in boundary ZIP",
        by simp [_search_shp_member, hf]⟩
  | cons c cs =>
    have hmem : minByLen c cs ∈ members.filter shpMatch := hf ▸ minByLen_mem c cs
    have hmin : ∀ x ∈ members.filter shpMatch, (minByLen c cs).length ≤ x.length := by
      rw [hf]
      exact minByLen_le c cs
    refine ⟨?_, ?_, ?_⟩
    · intro m hm
      have hmeq : minByLen c cs = m := by
        simpa [_search_shp_member, hf] using hm
      subst hmeq
      refine ⟨(List.mem_filter.mp hmem).1, (List.mem_filter.mp hmem).2, ?_⟩
      intro m' hm' hsm
      exact hmin m' (List.mem_filter.mpr ⟨hm', hsm⟩)
    · rintro ⟨e, he⟩
      simp [_search_shp_member, hf] at he
    · intro hall
      have hmt := (List.mem_filter.mp hmem).2
      rw [hall _ (List.mem_filter.mp hmem).1] at hmt
      simp at hmt

/-- A small boundary-archive member list exercising the selection. -/
def zipMembers : List String :=
  ["LDN/MSOA_London_full.shp", "MSOA_London.shp", "notes.txt"]

theorem C7_witness :
    "MSOA_London.shp" ∈ zipMembers ∧ shpMatch "MSOA_London.shp" = true ∧
      ∀ m' ∈ zipMembers, shpMatch m' = true →
        ("MSOA_London.shp").length ≤ m'.length :=
  (C7_shapefile_selection zipMembers).1 "MSOA_London.shp" (by rfl)

/-! ### Claim C6: the 65th percentile -/

lemma getD_mono_sorted (s : List ℚ) (hsort : s.Sorted (· ≤ ·)) {i k : ℕ}
    (hik : i ≤ k) (hk : k < s.length) : s.getD i 0 ≤ s.getD k 0 := by
  have hi : i < s.length := lt_of_le_of_lt hik hk
  rw [List.getD_eq_getElem _ _ hi, List.getD_eq_getElem _ _ hk]
  have h := hsort.rel_get_of_le (a := ⟨i, hi⟩) (b := ⟨k, hk⟩)
    (Fin.mk_le_mk.mpr hik)
  simpa using h

lemma sorted_count_lower (s : List ℚ) (hsort : s.Sorted (· ≤ ·)) (j : ℕ)
    (hj : j < s.length) (q : ℚ) (hq : s.getD j 0 ≤ q) :
    j + 1 ≤ s.countP (fun x => decide (x ≤ q)) := by
  have htake : ∀ x ∈ s.take (j + 1), x ≤ q := by
    intro x hx
    obtain ⟨i, hi, hix⟩ := List.mem_iff_getElem.mp hx
    have hi' : i < s.length := by
      have := hi
      simp only [List.length_take] at this
      omega
    have hij : i ≤ j := by
      have := hi
      simp only [List.length_take] at this
      omega
    have hxi : x = s.getD i 0 := by
      rw [List.getD_eq_getElem _ _ hi', ← hix, List.getElem_take]
    rw [hxi]
    exact le_trans (getD_mono_sorted s hsort hij hj) hq
  have hlen : (s.take (j + 1)).length = j + 1 := by
    simp only [List.length_take]
    omega
  have hcount : (s.take (j + 1)).countP (fun x => decide (x ≤ q)) =
      (s.take (j + 1)).length :=
    List.countP_eq_length.mpr (fun a ha => decide_eq_true (htake a ha))
  calc j + 1 = (s.take (j + 1)).countP (fun x => decide (x ≤ q)) := by
        rw [hcount, hlen]
    _ ≤ (s.take (j + 1)).countP (fun x => decide (x ≤ q)) +
        (s.drop (j + 1)).countP (fun x => decide (x ≤ q)) := Nat.le_add_right _ _
    _ = s.countP (fun x => decide (x ≤ q)) := by
        rw [← List.countP_append, List.take_append_drop]

/-- C6 amended: on a non-empty column of `n` prices, at least
`⌊0.65 * (n - 1)⌋ + 1` rows (not 65% of `n`) lie at or below the
interpolated 65th percentile. -/
theorem C6_percentile_lower_bound (l : List ℚ) (hne : l ≠ []) :
    ⌊65 * ((l.length : ℚ) - 1) / 100⌋.toNat + 1 ≤
      l.countP (fun x => decide (x ≤ quantile65 l)) := by
  have hperm : (sortQ l).Perm l := List.perm_insertionSort _ l
  have hsort : (sortQ l).Sorted (· ≤ ·) := List.sorted_insertionSort _ l
  have hslen : (sortQ l).length = l.length := hperm.length_eq
  have hn1 : 1 ≤ l.length := List.length_pos.mpr hne
  have hn1q : (1 : ℚ) ≤ (l.length : ℚ) := by exact_mod_cast hn1
  have hh0 : 0 ≤ 65 * ((l.length : ℚ) - 1) / 100 := by
    apply div_nonneg _ (by norm_num)
    apply mul_nonneg (by norm_num)
    linarith
  have hfl0 : 0 ≤ ⌊65 * ((l.length : ℚ) - 1) / 100⌋ := Int.floor_nonneg.mpr hh0
  have hhub : 65 * ((l.length : ℚ) - 1) / 100 ≤ (l.length : ℚ) - 1 := by
    rw [div_le_iff₀ (by norm_num : (0 : ℚ) < 100)]
    nlinarith
  have hflub : ⌊65 * ((l.length : ℚ) - 1) / 100⌋ ≤ (l.length : ℤ) - 1 := by
    have h1 : (⌊65 * ((l.length : ℚ) - 1) / 100⌋ : ℚ) ≤ (l.length : ℚ) - 1 :=
      le_trans (Int.floor_le _) hhub
    exact_mod_cast h1
  have hjn : ⌊65 * ((l.length : ℚ) - 1) / 100⌋.toNat ≤ l.length - 1 := by omega
  have hjlt : ⌊65 * ((l.length : ℚ) - 1) / 100⌋.toNat < (sortQ l).length := by omega
  have hg0 : 0 ≤ 65 * ((l.length : ℚ) - 1) / 100 -
      ((⌊65 * ((l.length : ℚ) - 1) / 100⌋.toNat : ℕ) : ℚ) := by
    have h1 : ((⌊65 * ((l.length : ℚ) - 1) / 100⌋.toNat : ℕ) : ℤ) =
        ⌊65 * ((l.length : ℚ) - 1) / 100⌋ := Int.toNat_of_nonneg hfl0
    have h2 : ((⌊65 * ((l.length : ℚ) - 1) / 100⌋.toNat : ℕ) : ℚ) =
        ((⌊65 * ((l.length : ℚ) - 1) / 100⌋ : ℤ) : ℚ) := by
      rw [← h1]
      exact (Int.cast_natCast _).symm
    rw [h2]
    have h3 := Int.floor_le (65 * ((l.length : ℚ) - 1) / 100)
    linarith
  have hq65 : (sortQ l).getD (⌊65 * ((l.length : ℚ) - 1) / 100⌋.toNat) 0 ≤
      quantile65 l := by
    show (sortQ l).getD (⌊65 * ((l.length : ℚ) - 1) / 100⌋.toNat) 0 ≤
      (sortQ l).getD (⌊65 * ((l.length : ℚ) - 1) / 100⌋.toNat) 0 +
        (65 * ((l.length : ℚ) - 1) / 100 -
          ((⌊65 * ((l.length : ℚ) - 1) / 100⌋.toNat : ℕ) : ℚ)) *
        ((sortQ l).getD
            (min (⌊65 * ((l.length : ℚ) - 1) / 100⌋.toNat + 1) (l.length - 1)) 0 -
          (sortQ l).getD (⌊65 * ((l.length : ℚ) - 1) / 100⌋.toNat) 0)
    have hmono : (sortQ l).getD (⌊65 * ((l.length : ℚ) - 1) / 100⌋.toNat) 0 ≤
        (sortQ l).getD
          (min (⌊65 * ((l.length : ℚ) - 1) / 100⌋.toNat + 1) (l.length - 1)) 0 := by
      apply getD_mono_sorted _ hsort (by omega) (by omega)
    nlinarith [mul_nonneg hg0 (sub_nonneg.mpr hmono)]
  rw [← hperm.countP_eq]
  exact sorted_count_lower _ hsort _ hjlt _ hq65

theorem C6_witness :
    ⌊65 * ((([(100 : ℚ), 200, 300]).length : ℚ) - 1) / 100⌋.toNat + 1 ≤
      ([(100 : ℚ), 200, 300]).countP
        (fun x => decide (x ≤ quantile65 [(100 : ℚ), 200, 300])) :=
  C6_percentile_lower_bound [(100 : ℚ), 200, 300] (by simp)

/-- C6 counterexample: on the two-row price column `[100, 200]` the
interpolated 65th percentile is `165`, and only one of the two rows
(50%, not at least 65%) lies at or below it. -/
theorem C6_counterexample :
    quantile65 [(100 : ℚ), 200] = 165 ∧
    ([(100 : ℚ), 200].countP
      (fun x => decide (x ≤ quantile65 [(100 : ℚ), 200]))) = 1 ∧
    ¬((65 : ℚ) / 100 * (([(100 : ℚ), 200]).length : ℚ) ≤
      (([(100 : ℚ), 200].countP
        (fun x => decide (x ≤ quantile65 [(100 : ℚ), 200]))) : ℚ)) := by
  have hq : quantile65 [(100 : ℚ), 200] = 165 := by
    norm_num [quantile65, sortQ, List.insertionSort, List.orderedInsert]
  have hc : ([(100 : ℚ), 200].countP
      (fun x => decide (x ≤ quantile65 [(100 : ℚ), 200]))) = 1 := by
    rw [hq]
    norm_num [List.countP_cons]
  refine ⟨hq, hc, ?_⟩
  rw [hc]
  norm_num

/-! ### Claim C8: the two ethnicity-processing paths -/

/-- C8 counterexample: on a consistent observation list carrying both the
aggregate rows and the subcategory rows, the download path reports
population `500` (the `"All ethnic groups"` row) while the local-CSV path
reports `1050` (the sum of every row, aggregates included), so the two
paths do not produce equal tables. -/
theorem C8_counterexample :
    process_observations obsEx = [("E02000001", 50, 500)] ∧
    process_census_data (obsEx.map toCRow) = [("E02000001", 50, 1050)] ∧
    process_observations obsEx ≠ process_census_data (obsEx.map toCRow) := by
  refine ⟨by decide, by decide, by decide⟩

/-- A row of the download path's output comes from an observation with sex
`"All persons"`, the exact tracked-group aggregate label, and that area
code carrying the reported count. -/
lemma process_observations_mem {L : List Obs} {a : String} {c p : ℤ}
    (h : (a, c, p) ∈ process_observations L) :
    ∃ o ∈ L, o.sex = "All persons" ∧ o.msoa = a ∧
      o.ethnic_group = blackAgg ∧ o.value = c := by
  simp only [process_observations] at h
  obtain ⟨b, hb, hmem2⟩ := List.mem_flatMap.mp h
  obtain ⟨t, ht, heq⟩ := List.mem_map.mp hmem2
  have hb1 : b.1 = a := congrArg (fun q => q.1) heq
  have hb2 : b.2 = c := congrArg (fun q => q.2.1) heq
  obtain ⟨d, hd, hdb⟩ := List.mem_map.mp hb
  have hd1 : d.1 = a := by rw [← hb1, ← hdb]
  have hd2 : d.2.2 = c := by rw [← hb2, ← hdb]
  have hdl : d.2.1 = blackAgg := by
    have hf := (List.mem_filter.mp hd).2
    simpa using hf
  have hdmem : d ∈ obsData L := (List.mem_filter.mp hd).1
  obtain ⟨o, ho, hoe⟩ := List.mem_filterMap.mp hdmem
  by_cases hs : (o.sex == "All persons") = true
  · rw [if_pos hs] at hoe
    have h3 := Option.some.inj hoe
    have hm1 : o.msoa = d.1 := congrArg (fun q => q.1) h3
    have hm2 : o.ethnic_group = d.2.1 := congrArg (fun q => q.2.1) h3
    have hm3 : o.value = d.2.2 := congrArg (fun q => q.2.2) h3
    exact ⟨o, ho, by simpa using hs, hm1.trans hd1, hm2.trans hdl, hm3.trans hd2⟩
  · rw [if_neg hs] at hoe
    exact absurd hoe (by simp)

/-- C8 amended: the two paths are not equivalent (see the counterexample:
they disagree on population whenever an `"All ethnic groups"` row is
present, and only the local path restricts areas to the `"E02"` region),
but the reported group counts agree on every area for which the exact
aggregate row's value equals the local path's sum of tracked-group
subcategory rows. -/
theorem C8_group_count_agreement (L : List Obs) (a : String) (c p c' p' : ℤ)
    (hcons : ∀ o ∈ L, o.msoa = a → o.ethnic_group = blackAgg →
      o.value = blackSumFor (L.map toCRow) a)
    (hdl : (a, c, p) ∈ process_observations L)
    (hloc : (a, c', p') ∈ process_census_data (L.map toCRow)) :
    c = c' := by
  obtain ⟨o, ho, -, hma, hme, hval⟩ := process_observations_mem hdl
  have hc : c = blackSumFor (L.map toCRow) a := by
    rw [← hval]
    exact hcons o ho hma hme
  have hc' : c' = blackSumFor (L.map toCRow) a := (process_census_mem hloc).1
  rw [hc, hc']

theorem C8_witness : (50 : ℤ) = 50 :=
  C8_group_count_agreement obsEx "E02000001" 50 500 50 1050
    (by decide) (by decide) (by decide)

/-! ### Claim C2: the joiner -/

lemma filter_eq_find?_toList {β : Type} (kb : β → String) (r : List β)
    (hr : (r.map kb).Nodup) (k : String) :
    r.filter (fun b => kb b == k) = (r.find? (fun b => kb b == k)).toList := by
  induction r with
  | nil => rfl
  | cons b rest ih =>
    simp only [List.map_cons, List.nodup_cons] at hr
    by_cases h : (kb b == k) = true
    · have hk : kb b = k := eq_of_beq h
      have hnone : rest.filter (fun b' => kb b' == k) = [] := by
        refine List.filter_eq_nil_iff.mpr ?_
        intro b' hb' hcon
        refine hr.1 ?_
        rw [hk, ← eq_of_beq hcon]
        exact List.mem_map.mpr ⟨b', hb', rfl⟩
      simp [List.filter_cons, h, List.find?, hnone]
    · have hf : (kb b == k) = false := by simpa using h
      simp [List.filter_cons, hf, List.find?, ih hr.2]

lemma mergeLeft_eq_map {α β γ : Type} (ka : α → String) (kb : β → String)
    (mk : α → Option β → γ) (l : List α) (r : List β)
    (hr : (r.map kb).Nodup) :
    mergeLeft ka kb mk l r =
      l.map (fun a => mk a (r.find? (fun b => kb b == ka a))) := by
  induction l with
  | nil => rfl
  | cons a rest ih =>
    have hh : (match r.filter (fun b => kb b == ka a) with
        | [] => [mk a none]
        | ms => ms.map (fun b => mk a (some b))) =
        [mk a (r.find? (fun b => kb b == ka a))] := by
      rw [filter_eq_find?_toList kb r hr (ka a)]
      cases r.find? (fun b => kb b == ka a) <;> rfl
    simp only [mergeLeft] at ih ⊢
    simp only [List.flatMap_cons]
    rw [hh, ih, List.map_cons, List.singleton_append]

/-- The wide row the three merges build for one boundary row, with each
right table contributing through a unique-key lookup. -/
def joinRow (inc : List IRow) (bl : List BOut) (hous : List HRow)
    (a : GRow) : JRow :=
  ⟨a.msoa, a.msoa_name,
    (inc.find? (fun b => b.msoa == a.msoa)).map IRow.income,
    (bl.find? (fun b => b.msoa == a.msoa)).map BOut.black_count,
    (bl.find? (fun b => b.msoa == a.msoa)).map BOut.population,
    (bl.find? (fun b => b.msoa == a.msoa)).map BOut.black_share,
    (hous.find? (fun b => b.msoa == a.msoa)).map HRow.msoa_full_name,
    (hous.find? (fun b => b.msoa == a.msoa)).map HRow.median_house_price⟩

lemma bl_keys (blackcsv : List BRow) :
    (load_black_population blackcsv).map BOut.msoa = blackcsv.map BRow.msoa := by
  simp [load_black_population, List.map_map, Function.comp_def]

lemma load_all_data_eq (g : List GRow) (inc : List IRow) (blackcsv : List BRow)
    (hous : List HRow) (hI : (inc.map IRow.msoa).Nodup)
    (hB : (blackcsv.map BRow.msoa).Nodup) (hH : (hous.map HRow.msoa).Nodup) :
    load_all_data g inc blackcsv hous =
      (g.map (joinRow inc (load_black_population blackcsv) hous)).filter
        keepRow := by
  have hbl : ((load_black_population blackcsv).map BOut.msoa).Nodup := by
    rw [bl_keys]
    exact hB
  unfold load_all_data mergeHousing mergeBlack mergeIncome
  congr 1
  rw [mergeLeft_eq_map _ _ _ _ _ hH, mergeLeft_eq_map _ _ _ _ _ hbl,
    mergeLeft_eq_map _ _ _ _ _ hI]
  simp [List.map_map, Function.comp_def, joinRow]

lemma notNaNCell_some (x : Option PFloat) (h : notNaNCell x = true) :
    ∃ v, x = some v ∧ v.isNaN = false := by
  cases x with
  | none => simp [notNaNCell] at h
  | some v => exact ⟨v, rfl, by simpa [notNaNCell] using h⟩

/-- C2: with area codes unique in each input table, the joined-and-cleaned
output has at most as many rows as each (hence the smallest) input table,
and every output row has its share, income and house-price cells present
and not NaN. -/
theorem C2_joiner (g : List GRow) (inc : List IRow) (blackcsv : List BRow)
    (hous : List HRow) (hG : (g.map GRow.msoa).Nodup)
    (hI : (inc.map IRow.msoa).Nodup) (hB : (blackcsv.map BRow.msoa).Nodup)
    (hH : (hous.map HRow.msoa).Nodup) :
    (load_all_data g inc blackcsv hous).length ≤
      min g.length (min inc.length (min blackcsv.length hous.length)) ∧
    ∀ j ∈ load_all_data g inc blackcsv hous,
      (∃ q, j.income = some q) ∧ (∃ q, j.median_house_price = some q) ∧
      (∃ v, j.black_share = some v ∧ v.isNaN = false) := by
  have heq := load_all_data_eq g inc blackcsv hous hI hB hH
  have hrows : ∀ j ∈ load_all_data g inc blackcsv hous, keepRow j = true := by
    intro j hj
    rw [heq] at hj
    exact (List.mem_filter.mp hj).2
  have hmem : ∀ j ∈ load_all_data g inc blackcsv hous,
      ∃ a ∈ g, j = joinRow inc (load_black_population blackcsv) hous a := by
    intro j hj
    rw [heq] at hj
    obtain ⟨a, ha, rfl⟩ := List.mem_map.mp (List.mem_filter.mp hj).1
    exact ⟨a, ha, rfl⟩
  constructor
  · have hlen_g : (load_all_data g inc blackcsv hous).length ≤ g.length := by
      rw [heq]
      calc ((g.map (joinRow inc (load_black_population blackcsv) hous)).filter
            keepRow).length
          ≤ (g.map (joinRow inc (load_black_population blackcsv) hous)).length :=
            List.length_filter_le _ _
        _ = g.length := List.length_map _ _
    have hsubl : List.Sublist (load_all_data g inc blackcsv hous)
        (g.map (joinRow inc (load_black_population blackcsv) hous)) := by
      rw [heq]
      exact List.filter_sublist _
    have hkeysall : (g.map (joinRow inc (load_black_population blackcsv)
        hous)).map JRow.msoa = g.map GRow.msoa := by
      simp [List.map_map, Function.comp_def, joinRow]
    have hnodupOut : ((load_all_data g inc blackcsv hous).map JRow.msoa).Nodup := by
      have h2 : ((g.map (joinRow inc (load_black_population blackcsv)
          hous)).map JRow.msoa).Nodup := by
        rw [hkeysall]
        exact hG
      exact h2.sublist (hsubl.map _)
    have hsubI : (load_all_data g inc blackcsv hous).map JRow.msoa ⊆
        inc.map IRow.msoa := by
      intro x hx
      obtain ⟨j, hj, rfl⟩ := List.mem_map.mp hx
      obtain ⟨a, ha, rfl⟩ := hmem j hj
      have hk := hrows _ hj
      simp only [keepRow, Bool.and_eq_true] at hk
      obtain ⟨⟨hshare, hincome⟩, hprice⟩ := hk
      have hi2 : ((inc.find? (fun b => b.msoa == a.msoa)).map
          IRow.income).isSome = true := hincome
      cases hfind : inc.find? (fun b => b.msoa == a.msoa) with
      | none =>
        rw [hfind] at hi2
        simp at hi2
      | some b =>
        have hbmem := List.mem_of_find?_eq_some hfind
        have hbeq : b.msoa = a.msoa := by simpa using List.find?_some hfind
        show a.msoa ∈ inc.map IRow.msoa
        rw [← hbeq]
        exact List.mem_map.mpr ⟨b, hbmem, rfl⟩
    have hsubB : (load_all_data g inc blackcsv hous).map JRow.msoa ⊆
        blackcsv.map BRow.msoa := by
      intro x hx
      obtain ⟨j, hj, rfl⟩ := List.mem_map.mp hx
      obtain ⟨a, ha, rfl⟩ := hmem j hj
      have hk := hrows _ hj
      simp only [keepRow, Bool.and_eq_true] at hk
      obtain ⟨⟨hshare, hincome⟩, hprice⟩ := hk
      have hi2 : notNaNCell (((load_black_population blackcsv).find?
          (fun b => b.msoa == a.msoa)).map BOut.black_share) = true := hshare
      cases hfind : (load_black_population blackcsv).find?
          (fun b => b.msoa == a.msoa) with
      | none =>
        rw [hfind] at hi2
        simp [notNaNCell] at hi2
      | some b =>
        have hbmem := List.mem_of_find?_eq_some hfind
        have hbeq : b.msoa = a.msoa := by simpa using List.find?_some hfind
        show a.msoa ∈ blackcsv.map BRow.msoa
        rw [← bl_keys, ← hbeq]
        exact List.mem_map.mpr ⟨b, hbmem, rfl⟩
    have hsubH : (load_all_data g inc blackcsv hous).map JRow.msoa ⊆
        hous.map HRow.msoa := by
      intro x hx
      obtain ⟨j, hj, rfl⟩ := List.mem_map.mp hx
      obtain ⟨a, ha, rfl⟩ := hmem j hj
      have hk := hrows _ hj
      simp only [keepRow, Bool.and_eq_true] at hk
      obtain ⟨⟨hshare, hincome⟩, hprice⟩ := hk
      have hi2 : ((hous.find? (fun b => b.msoa == a.msoa)).map
          HRow.median_house_price).isSome = true := hprice
      cases hfind : hous.find? (fun b => b.msoa == a.msoa) with
      | none =>
        rw [hfind] at hi2
        simp at hi2
      | some b =>
        have hbmem := List.mem_of_find?_eq_some hfind
        have hbeq : b.msoa = a.msoa := by simpa using List.find?_some hfind
        show a.msoa ∈ hous.map HRow.msoa
        rw [← hbeq]
        exact List.mem_map.mpr ⟨b, hbmem, rfl⟩
    have hlenI : (load_all_data g inc blackcsv hous).length ≤ inc.length := by
      have h3 := (List.subperm_of_subset hnodupOut hsubI).length_le
      simpa using h3
    have hlenB : (load_all_data g inc blackcsv hous).length ≤ blackcsv.length := by
      have h3 := (List.subperm_of_subset hnodupOut hsubB).length_le
      simpa using h3
    have hlenH : (load_all_data g inc blackcsv hous).length ≤ hous.length := by
      have h3 := (List.subperm_of_subset hnodupOut hsubH).length_le
      simpa using h3
    exact le_min hlen_g (le_min hlenI (le_min hlenB hlenH))
  · intro j hj
    have hk := hrows j hj
    simp only [keepRow, Bool.and_eq_true] at hk
    obtain ⟨⟨hshare, hincome⟩, hprice⟩ := hk
    exact ⟨Option.isSome_iff_exists.mp hincome,
      Option.isSome_iff_exists.mp hprice, notNaNCell_some _ hshare⟩

/-- Small concrete input tables for the joiner. -/
def gEx : List GRow := [⟨"E02000001", "City of London 001"⟩, ⟨"E02000002", "Barking 001"⟩]

/-- A one-row income table. -/
def incEx : List IRow := [⟨"E02000001", 50000⟩]

/-- A one-row Black-population CSV. -/
def blackcsvEx : List BRow := [⟨"E02000001", 10, 100⟩]

/-- A one-row housing table. -/
def housEx : List HRow := [⟨"E02000001", "City of London 001", 300000⟩]

theorem C2_witness :
    (load_all_data gEx incEx blackcsvEx housEx).length ≤
      min gEx.length (min incEx.length (min blackcsvEx.length housEx.length)) ∧
    ∀ j ∈ load_all_data gEx incEx blackcsvEx housEx,
      (∃ q, j.income = some q) ∧ (∃ q, j.median_house_price = some q) ∧
      (∃ v, j.black_share = some v ∧ v.isNaN = false) :=
  C2_joiner gEx incEx blackcsvEx housEx (by decide) (by decide) (by decide)
    (by decide)
